import Mathlib

/-!
Shallow embedding of the help-window rendering pipeline of
`src/ui/help_window.rs`: markup stripping with bold-toggle extraction
(`strip_markup_and_extract_bold_positions`), stylization of wrapped lines
(`stylize_wrapped_lines`), keyboard-shortcut table justification
(`get_justified_keyboard_shortcuts_table`) and the marker-driven document
extraction of `get_formatted_help_text`.

Strings are modelled as `List Char`.  Rust panics (`expect`, out-of-bounds
indexing `cols[1]` / `cols[2]`, sub-slicing with a start index past the end
index, and `usize` subtraction underflow) are modelled as `none`.  The
external word-wrap capability (`textwrap::wrap`) is passed in as a black-box
function, following the source which treats it as an external crate.
-/

/-- Backtick character, the inline emphasis marker of the markup dialect. -/
def btick : Char := Char.ofNat 96

/-- Rust `str::starts_with`: `startsWith pat s` is true when `pat` is an
initial segment of `s`. -/
def startsWith : List Char → List Char → Bool
  | [], _ => true
  | _ :: _, [] => false
  | p :: ps, c :: cs => p == c && startsWith ps cs

/-- Whitespace test used by `trim` (the ASCII fragment of Rust
`char::is_whitespace`; the cells of the shortcuts table are ASCII). -/
def isWs (c : Char) : Bool := c == ' ' || c == '\t' || c == '\n' || c == '\r'

/-- Rust `str::trim` on char lists. -/
def trim (l : List Char) : List Char :=
  ((l.dropWhile isWs).reverse.dropWhile isWs).reverse

/-- Rust `str::split` with a single-character pattern: `"".split(sep)` is
`[""]`, separators at either end produce empty pieces. -/
def splitChar (sep : Char) : List Char → List (List Char)
  | [] => [[]]
  | c :: cs =>
    if c == sep then [] :: splitChar sep cs
    else
      match splitChar sep cs with
      | [] => [[c]]
      | h :: t => (c :: h) :: t

/-- Byte index (here: char index) of the first occurrence of `pat` in `s`,
Rust `str::find`. -/
def findIdx (pat : List Char) : List Char → Option Nat
  | [] => if startsWith pat [] then some 0 else none
  | c :: cs =>
    if startsWith pat (c :: cs) then some 0
    else (findIdx pat cs).map (· + 1)

/-- Rust `str::split_once`: split around the first occurrence of `pat`,
dropping the pattern itself. -/
def splitOnce (pat s : List Char) : Option (List Char × List Char) :=
  (findIdx pat s).map fun i => (s.take i, s.drop (i + pat.length))

/-- Rust `str::replace`: replace every (leftmost, non-overlapping) occurrence
of `pat`; the replacement text is not rescanned.  The `pat ≠ []` guard keeps
the function total; the source only uses the non-empty patterns `<kbd>` and
`</kbd>`. -/
def replaceAll (pat repl s : List Char) : List Char :=
  match s with
  | [] => []
  | c :: cs =>
    if pat ≠ [] ∧ startsWith pat (c :: cs) = true then
      repl ++ replaceAll pat repl (cs.drop (pat.length - 1))
    else
      c :: replaceAll pat repl cs
termination_by s.length
decreasing_by
  · simp [List.length_drop]
    omega
  · simp

/-- Rust `str::lines` (without `\r\n` handling; the embedded document uses
plain `\n`): split at newlines, a trailing newline produces no final empty
line. -/
def rustLines (s : List Char) : List (List Char) :=
  let parts := splitChar '\n' s
  if parts.getLast? = some [] then parts.dropLast else parts

/-- Loop state of `strip_markup_and_extract_bold_positions`: the toggle
offsets and output collected so far, `prev_char`, `parsing_heading` and the
output-position `counter`. -/
structure StripState where
  toggles : List Nat
  out : List Char
  prevChar : Option Char
  parsingHeading : Bool
  counter : Nat
deriving DecidableEq

/-- One iteration of the character loop of
`strip_markup_and_extract_bold_positions` (lines 116-136 of the source). -/
def stripStep (s : StripState) (c : Char) : StripState :=
  if c = '#' then
    if s.parsingHeading then { s with prevChar := some c }
    else { s with parsingHeading := true, toggles := s.toggles ++ [s.counter],
                  prevChar := some c }
  else if c = ' ' ∧ s.parsingHeading = true ∧ s.prevChar = some '#' then
    -- skip space after hashes that indicate heading
    { s with prevChar := some c }
  else if c = '\n' ∧ s.parsingHeading = true then
    { s with toggles := s.toggles ++ [s.counter], parsingHeading := false,
             counter := s.counter + 1, out := s.out ++ [c], prevChar := some c }
  else if c = btick then
    { s with toggles := s.toggles ++ [s.counter], prevChar := some c }
  else
    { s with counter := s.counter + 1, out := s.out ++ [c], prevChar := some c }

/-- Rust `strip_markup_and_extract_bold_positions`: returns the markup-free
text and the bold toggle offsets (indices into the returned text). -/
def strip_markup_and_extract_bold_positions (text : List Char) :
    List Char × List Nat :=
  let s := text.foldl stripStep ⟨[], [], none, false, 0⟩
  (s.out, s.toggles)

/-- A styled chunk: its text together with its bold flag (the
`crossterm::style::StyledContent` of the source, which is either `.bold()`
or plain `.stylize()`). -/
structure Seg where
  text : List Char
  bold : Bool
deriving DecidableEq

/-- Result of the inner character loop of `stylize_wrapped_lines` on one
line: the chunks flushed so far, the loop state (`counter`, remaining
toggles, `bold`) and the pending accumulation `cur_chunk`. -/
structure LineOut where
  chunks : List Seg
  counter : Nat
  toggles : List Nat
  bold : Bool
  cur : List Char
deriving DecidableEq

/-- Result of the outer loop of `stylize_wrapped_lines` together with its
final state. -/
structure StylizeOut where
  lines : List (List Seg)
  counter : Nat
  toggles : List Nat
  bold : Bool
deriving DecidableEq

/-- Inner character loop of `stylize_wrapped_lines` (lines 159-172 of the
source).  `toggles.head?` plays the role of `next_toggle_loc`; consuming a
toggle (`bold_toggle_locs.next()`) is taking the tail. -/
def stylizeLineChars :
    List Char → Nat → List Nat → Bool → List Seg → List Char → LineOut
  | [], counter, toggles, bold, chunks, cur => ⟨chunks, counter, toggles, bold, cur⟩
  | c :: cs, counter, toggles, bold, chunks, cur =>
    if toggles.head? = some counter then
      stylizeLineChars cs (counter + 1) toggles.tail (!bold)
        (chunks ++ [⟨cur, bold⟩]) [c]
    else
      stylizeLineChars cs (counter + 1) toggles bold chunks (cur ++ [c])

/-- Outer line loop of `stylize_wrapped_lines` (lines 155-192 of the
source): flush the non-empty remainder, always turn off bold at the end of
the line (consuming a toggle when bold was on), and advance the counter for
the implicit newline. -/
def stylizeLines : List (List Char) → Nat → List Nat → Bool → StylizeOut
  | [], counter, toggles, bold => ⟨[], counter, toggles, bold⟩
  | l :: ls, counter, toggles, bold =>
    let s := stylizeLineChars l counter toggles bold [] []
    let chunks := if s.cur.isEmpty then s.chunks else s.chunks ++ [⟨s.cur, s.bold⟩]
    -- always turn off bold at the end of the line
    let toggles2 := if s.bold then s.toggles.tail else s.toggles
    let bold2 := if s.bold then false else s.bold
    -- increment counter for newline
    let r := stylizeLines ls (s.counter + 1) toggles2 bold2
    ⟨chunks :: r.lines, r.counter, r.toggles, r.bold⟩

/-- Rust `stylize_wrapped_lines`. -/
def stylize_wrapped_lines (lines : List (List Char)) (bold_toggle_locs : List Nat) :
    List (List Seg) :=
  (stylizeLines lines 0 bold_toggle_locs false).lines

/-- Raw (untrimmed) second piece of a `'|'`-split line:
`line.split('|').nth(1).unwrap_or("")` of the source. -/
def cell1 (line : List Char) : List Char := (splitChar '|' line).getD 1 []

/-- The `first_column_width` computation (lines 65-69 of the source):
maximum raw first-cell length over all rows, `10` for an empty block. -/
def firstColumnWidth (block : List (List Char)) : Nat :=
  match block with
  | [] => 10
  | b :: bs => (bs.map fun l => (cell1 l).length).foldl Nat.max (cell1 b).length

/-- Action cell of a row after trimming, wrapped in emphasis markers when it
is the first row (`i == 0`). -/
def rowAction (first : Bool) (c1 : List Char) : List Char :=
  if first then btick :: (trim c1 ++ [btick]) else trim c1

/-- Shortcut cell of a row after trimming, wrapped in emphasis markers when
it is the first row. -/
def rowShortcut (first : Bool) (c2 : List Char) : List Char :=
  if first then btick :: (trim c2 ++ [btick]) else trim c2

/-- Number of emphasis-marker characters in a cell (`extra_len` of the
source). -/
def extraLen (a : List Char) : Nat := a.countP (· == btick)

/-- Row loop of `get_justified_keyboard_shortcuts_table` (lines 73-103 of
the source).  Rust indexes `cols[1]` and `cols[2]` (a panic when absent) and
computes the padding with `usize` subtraction (a panic on underflow in debug
builds); both panics are modelled as `none`.  The final `some ['\n']` is the
extra newline appended after the loop. -/
def justifyRows (fcw : Nat) : Nat → List (List Char) → Option (List Char)
  | _, [] => some ['\n']
  | i, line :: rest =>
    let cols := splitChar '|' line
    match cols.get? 1, cols.get? 2 with
    | some c1, some c2 =>
      if startsWith (String.toList ":--") (trim c1) then
        -- skip markdown table formatting row
        justifyRows fcw (i + 1) rest
      else
        let action := rowAction (i == 0) c1
        let shortcut := rowShortcut (i == 0) c2
        let extra := extraLen action
        if action.length ≤ fcw + extra + 2 then
          match justifyRows fcw (i + 1) rest with
          | some out =>
            some (action ++ List.replicate (fcw + extra + 2 - action.length) ' ' ++
                  shortcut ++ '\n' :: out)
          | none => none
        else none
    | _, _ => none

/-- Justify one table block: compute the shared column width over all rows,
then emit the rows. -/
def justifyTable (block : List (List Char)) : Option (List Char) :=
  justifyRows (firstColumnWidth block) 0 block

/-- Marker string `"## User guide"` (start of the user-guide section). -/
def UG_START : List Char := String.toList "## User guide"

/-- Marker string `"## Similar projects"` (end of the user-guide section). -/
def UG_END : List Char := String.toList "## Similar projects"

/-- Split pattern `"\n\n|"` that locates the shortcuts table inside the
extracted user guide. -/
def TBL_SPLIT : List Char := String.toList "\n\n|"

/-- Paragraph-break pattern `"\n\n"`. -/
def PARA_BREAK : List Char := String.toList "\n\n"

/-- Marker string `"keyboard shortcuts:\n\n"` (start of the shortcuts table
block). -/
def KBD_MARKER : List Char := String.toList "keyboard shortcuts:\n\n"

/-- Locate the shortcuts-table block in the document and split it into rows
(lines 56-63 of the source). -/
def tableLinesOf (doc : List Char) : Option (List (List Char)) :=
  match splitOnce KBD_MARKER doc with
  | some r =>
    match splitOnce PARA_BREAK r.2 with
    | some t => some (rustLines t.1)
    | none => none
  | none => none

/-- Rust `get_justified_keyboard_shortcuts_table`, generalized over the
embedded document (the source reads the compile-time constant `README_STR`;
the document is a parameter here so the marker-presence behaviour can be
stated for every document). -/
def get_justified_keyboard_shortcuts_table (doc : List Char) : Option (List Char) :=
  match tableLinesOf doc with
  | some ls => justifyTable ls
  | none => none

/-- Rust `get_formatted_help_text` up to (and excluding) the word-wrapping
step: marker-based extraction, table justification and re-insertion,
`<kbd>` replacement and markup stripping.  Returns the plain text together
with the bold toggle offsets.  The `a ≤ b` test models the panic of the Rust
slice `&README_STR[a..b]` when the start marker occurs after the end
marker. -/
def get_formatted_help_text_pre (doc : List Char) : Option (List Char × List Nat) :=
  match findIdx UG_START doc, findIdx UG_END doc with
  | some a, some b =>
    if a ≤ b then
      let help := (doc.drop a).take (b - a)
      match splitOnce TBL_SPLIT help with
      | some pr =>
        match splitOnce PARA_BREAK pr.2 with
        | some q =>
          match get_justified_keyboard_shortcuts_table doc with
          | some table =>
            let merged := pr.1 ++ '\n' :: '\n' :: (table ++ q.2)
            let replaced := replaceAll (String.toList "</kbd>") [btick]
                (replaceAll (String.toList "<kbd>") [btick] merged)
            some (strip_markup_and_extract_bold_positions replaced)
          | none => none
        | none => none
      | none => none
    else none
  | _, _ => none

/-- Rust `get_formatted_help_text`, with the external word-wrap capability
(`textwrap::wrap`) passed in as a black box. -/
def get_formatted_help_text (wrap : List Char → List (List Char))
    (doc : List Char) : Option (List (List Seg)) :=
  (get_formatted_help_text_pre doc).map fun p => stylize_wrapped_lines (wrap p.1) p.2

/-- All marker lookups of the pipeline succeed, in the order and places the
code performs them. -/
def markersOk (doc : List Char) : Bool :=
  match findIdx UG_START doc, findIdx UG_END doc with
  | some a, some b =>
    decide (a ≤ b) &&
    (match splitOnce TBL_SPLIT ((doc.drop a).take (b - a)) with
     | some pr => (splitOnce PARA_BREAK pr.2).isSome
     | none => false) &&
    (tableLinesOf doc).isSome
  | _, _ => false

/-- Every line of the extracted table block splits into at least three
pieces (that is, contains at least two `'|'` separators). -/
def tableWellFormed (doc : List Char) : Bool :=
  match tableLinesOf doc with
  | some ls => ls.all fun l => decide (3 ≤ (splitChar '|' l).length)
  | none => false

/-- Concatenated text of the segments of one styled line, ignoring the bold
flags. -/
def concatSegs (segs : List Seg) : List Char := (segs.map Seg.text).flatten

/-- Claim C2: on the input `"## foo bar\n\nlorem ipsum `dolor` sit amet"`,
the markup stripper returns exactly the plain text
`"foo bar\n\nlorem ipsum dolor sit amet"` and exactly the toggle list
`[0, 7, 21, 26]`. -/
theorem markup_stripper_worked_example :
    strip_markup_and_extract_bold_positions
        (String.toList "## foo bar\n\nlorem ipsum `dolor` sit amet") =
      (String.toList "foo bar\n\nlorem ipsum dolor sit amet", [0, 7, 21, 26]) := by
  decide

/-- Claim C3: on wrapped lines `["foo bar", "", "lorem ipsum dolor sit amet"]`
with toggle offsets `[0, 7, 21, 26]`, the stylizer produces exactly three
styled lines: an empty plain segment followed by a bold `"foo bar"`, an empty
line, and `"lorem ipsum "` plain, `"dolor"` bold, `" sit amet"` plain. -/
theorem stylizer_worked_example :
    stylize_wrapped_lines
        [String.toList "foo bar", [], String.toList "lorem ipsum dolor sit amet"]
        [0, 7, 21, 26] =
      [[⟨[], false⟩, ⟨String.toList "foo bar", true⟩],
       [],
       [⟨String.toList "lorem ipsum ", false⟩, ⟨String.toList "dolor", true⟩,
        ⟨String.toList " sit amet", false⟩]] := by
  decide

/-- Claim C1 counterexample: stylizing the single line `"a"` with toggle
offsets `[0, 5]`, the toggle at 0 fires at the first character, so at the
end of the line `bold` is true and the pending toggle offset is `5`; the
line-end reset then consumes that toggle, leaving no pending toggle — the
offset pending after the reset differs from the one pending before it,
refuting the claim that the reset leaves the next toggle offset untouched. -/
theorem stylizer_reset_consumes_toggle_cex :
    (stylizeLineChars (String.toList "a") 0 [0, 5] false [] []).bold = true ∧
      (stylizeLineChars (String.toList "a") 0 [0, 5] false [] []).toggles.head? = some 5 ∧
      (stylizeLines [String.toList "a"] 0 [0, 5] false).toggles.head? = none ∧
      (stylizeLines [String.toList "a"] 0 [0, 5] false).toggles.head? ≠
        (stylizeLineChars (String.toList "a") 0 [0, 5] false [] []).toggles.head? := by
  decide

/-- Claim C1 (amended): when bold is true at the end of a wrapped line it is
forced false before the next line, and this reset consumes one toggle from
the toggle list: for every line and every toggle-offset list, the toggle
list left for the following lines is the tail of the list that was pending
at the end of the line when bold was on there, and the unchanged pending
list when bold was off; the bold flag carried to the next line is always
false. -/
theorem stylizer_line_end_reset (l : List Char) (counter : Nat)
    (toggles : List Nat) (bold : Bool) :
    (stylizeLines [l] counter toggles bold).toggles =
      (if (stylizeLineChars l counter toggles bold [] []).bold = true
        then (stylizeLineChars l counter toggles bold [] []).toggles.tail
        else (stylizeLineChars l counter toggles bold [] []).toggles) ∧
      (stylizeLines [l] counter toggles bold).bold = false := by
  cases hb : (stylizeLineChars l counter toggles bold [] []).bold <;>
    simp [stylizeLines, hb]

/-- Claim C5 counterexample: on the input `"``"` (an empty emphasis span)
the two toggles are emitted at the same output offset, so the toggle list is
`[0, 0]`, which is not strictly ascending. -/
theorem strip_toggles_not_strictly_ascending_cex :
    (strip_markup_and_extract_bold_positions (String.toList "``")).2 = [0, 0] ∧
      ¬ List.Pairwise (· < ·)
          (strip_markup_and_extract_bold_positions (String.toList "``")).2 := by
  decide

/-- Claim C6 counterexample: on the input `"# a\n"` the stripper returns the
plain text `"a\n"` with toggle offsets `[0, 1]`; offset `1` is exactly the
index of the newline character in the plain text, so a toggle offset can
coincide with a newline position. -/
theorem toggle_at_newline_cex :
    (strip_markup_and_extract_bold_positions (String.toList "# a\n")).1 =
        String.toList "a\n" ∧
      (strip_markup_and_extract_bold_positions (String.toList "# a\n")).2 = [0, 1] ∧
      (strip_markup_and_extract_bold_positions (String.toList "# a\n")).1.get? 1 =
        some '\n' := by
  decide

@[simp] lemma concatSegs_nil : concatSegs [] = [] := rfl

@[simp] lemma concatSegs_cons (s : Seg) (t : List Seg) :
    concatSegs (s :: t) = s.text ++ concatSegs t := by
  simp [concatSegs]

@[simp] lemma concatSegs_append (a b : List Seg) :
    concatSegs (a ++ b) = concatSegs a ++ concatSegs b := by
  simp [concatSegs]

/-- The inner character loop never loses or duplicates characters: the text
of the flushed chunks followed by the pending accumulation is the initial
chunks-plus-accumulation followed by the characters fed in. -/
lemma stylizeLineChars_concat (cs : List Char) :
    ∀ (counter : Nat) (toggles : List Nat) (bold : Bool) (chunks : List Seg)
      (cur : List Char),
      concatSegs (stylizeLineChars cs counter toggles bold chunks cur).chunks ++
          (stylizeLineChars cs counter toggles bold chunks cur).cur =
        concatSegs chunks ++ (cur ++ cs) := by
  induction cs with
  | nil =>
    intro counter toggles bold chunks cur
    simp [stylizeLineChars]
  | cons c cs ih =>
    intro counter toggles bold chunks cur
    by_cases h : toggles.head? = some counter
    · simp only [stylizeLineChars, if_pos h]
      rw [ih]
      simp
    · simp only [stylizeLineChars, if_neg h]
      rw [ih]
      simp

/-- Each styled line of the outer loop concatenates back to the wrapped line
it came from, whatever the counter, toggle list and bold state. -/
lemma stylizeLines_concat :
    ∀ (lines : List (List Char)) (counter : Nat) (toggles : List Nat) (bold : Bool),
      (stylizeLines lines counter toggles bold).lines.map concatSegs = lines := by
  intro lines
  induction lines with
  | nil => intro c t b; simp [stylizeLines]
  | cons l ls ih =>
    intro c t b
    have h := stylizeLineChars_concat l c t b [] []
    simp only [concatSegs_nil, List.nil_append] at h
    simp only [stylizeLines, List.map_cons, ih]
    by_cases hcur : (stylizeLineChars l c t b [] []).cur.isEmpty
    · have hc0 : (stylizeLineChars l c t b [] []).cur = [] := by
        simpa [List.isEmpty_iff] using hcur
      rw [hc0, List.append_nil] at h
      simp [hcur, h]
    · simp only [hcur, if_neg]
      simp [h]

/-- Claim C4: for every sequence of wrapped input lines and every
toggle-offset list, concatenating the text of the segments of each styled
line (ignoring the bold flags) reproduces that input line exactly, and
therefore joining the per-line concatenations with newlines reproduces
exactly the word-wrapped plain text fed into the stylizer. -/
theorem stylizer_round_trip (lines : List (List Char)) (toggles : List Nat) :
    (stylize_wrapped_lines lines toggles).map concatSegs = lines ∧
      List.intercalate ['\n'] ((stylize_wrapped_lines lines toggles).map concatSegs) =
        List.intercalate ['\n'] lines := by
  have h : (stylize_wrapped_lines lines toggles).map concatSegs = lines := by
    simpa [stylize_wrapped_lines] using stylizeLines_concat lines 0 toggles false
  exact ⟨h, by rw [h]⟩

/-- Appending an element that dominates a nondecreasing list keeps it
nondecreasing inside a larger bound. -/
lemma toggles_push_inv {t : List Nat} {n m : Nat}
    (h1 : List.Pairwise (· ≤ ·) t) (h2 : ∀ x ∈ t, x ≤ n) (hnm : n ≤ m) :
    List.Pairwise (· ≤ ·) (t ++ [n]) ∧ (∀ x ∈ t ++ [n], x ≤ m) := by
  constructor
  · refine List.pairwise_append.mpr ⟨h1, by simp, ?_⟩
    intro a ha b hb
    have hb' : b = n := by simpa using hb
    subst hb'
    exact h2 a ha
  · intro x hx
    rcases List.mem_append.mp hx with hx | hx
    · exact le_trans (h2 x hx) hnm
    · have hx' : x = n := by simpa using hx
      omega

/-- One stripper step preserves the invariant: the toggle list is
nondecreasing and bounded by the output counter. -/
lemma stripStep_inv {s : StripState} (c : Char)
    (h1 : List.Pairwise (· ≤ ·) s.toggles)
    (h2 : ∀ x ∈ s.toggles, x ≤ s.counter) :
    List.Pairwise (· ≤ ·) (stripStep s c).toggles ∧
      (∀ x ∈ (stripStep s c).toggles, x ≤ (stripStep s c).counter) := by
  unfold stripStep
  split_ifs
  · exact ⟨h1, h2⟩
  · exact toggles_push_inv h1 h2 (le_refl _)
  · exact ⟨h1, h2⟩
  · exact toggles_push_inv h1 h2 (Nat.le_succ _)
  · exact toggles_push_inv h1 h2 (le_refl _)
  · refine ⟨h1, fun x hx => ?_⟩
    have := h2 x hx
    simp only
    omega

/-- The invariant holds along the whole fold of the stripper. -/
lemma strip_foldl_inv :
    ∀ (text : List Char) (s : StripState),
      List.Pairwise (· ≤ ·) s.toggles → (∀ x ∈ s.toggles, x ≤ s.counter) →
      List.Pairwise (· ≤ ·) (text.foldl stripStep s).toggles := by
  intro text
  induction text with
  | nil => intro s hp _; simpa using hp
  | cons c cs ih =>
    intro s hp hb
    have h := stripStep_inv c hp hb
    simpa using ih (stripStep s c) h.1 h.2

/-- Claim C5 (amended): for every input text the toggle-offset list returned
by the markup stripper is nondecreasing (sorted under `≤`); it is not in
general strictly ascending, since an empty emphasis span emits two toggles
at the same offset. -/
theorem strip_toggles_nondecreasing (text : List Char) :
    List.Pairwise (· ≤ ·) (strip_markup_and_extract_bold_positions text).2 := by
  have h := strip_foldl_inv text ⟨[], [], none, false, 0⟩ (by simp) (by simp)
  simpa [strip_markup_and_extract_bold_positions] using h

/-- Claim C6 (amended): a toggle offset can coincide with a newline position
in the plain text.  Whenever the stripper consumes a newline while parsing a
heading (the heading-close event), it emits a toggle at exactly the current
output position and then retains the newline at that very index: the
heading-close toggle offset always equals the index of that newline in the
output.  (The stylizer's between-line counter increment performs no toggle
comparison at all; a toggle pending at such a position is only ever removed
by the line-end bold reset.) -/
theorem heading_close_toggle_at_newline (s : StripState)
    (hc : s.counter = s.out.length) (hh : s.parsingHeading = true) :
    (stripStep s '\n').toggles = s.toggles ++ [s.out.length] ∧
      (stripStep s '\n').out.get? s.out.length = some '\n' := by
  have hne1 : ¬(('\n' : Char) = '#') := by decide
  have hne2 : ¬(('\n' : Char) = ' ' ∧ s.parsingHeading = true ∧
      s.prevChar = some '#') := by
    rintro ⟨h, -, -⟩
    exact absurd h (by decide)
  unfold stripStep
  rw [if_neg hne1, if_neg hne2, if_pos ⟨rfl, hh⟩]
  refine ⟨by rw [hc], ?_⟩
  simp [List.get?_eq_getElem?, List.getElem?_concat_length]

/-- Witness for the amended claim C6, at the state reached after reading
`"# a"`: the heading-close newline emits toggle offset 1 and sits at index 1
of the output. -/
theorem heading_close_toggle_at_newline_witness :
    (stripStep ⟨[0], ['a'], some 'a', true, 1⟩ '\n').toggles =
        [0] ++ [(['a'] : List Char).length] ∧
      (stripStep ⟨[0], ['a'], some 'a', true, 1⟩ '\n').out.get?
          (['a'] : List Char).length = some '\n' :=
  heading_close_toggle_at_newline ⟨[0], ['a'], some 'a', true, 1⟩ rfl rfl

/-- Every element of `x :: xs` is bounded by the left fold of `max` over
`xs` starting at `x`. -/
lemma le_foldl_max :
    ∀ (xs : List Nat) (x a : Nat), a ∈ x :: xs → a ≤ xs.foldl Nat.max x := by
  intro xs
  induction xs with
  | nil =>
    intro x a h
    have h' : a = x := by simpa using h
    simp [h']
  | cons y ys ih =>
    intro x a h
    have hx : x ≤ ys.foldl Nat.max (Nat.max x y) :=
      le_trans (Nat.le_max_left x y) (ih (Nat.max x y) _ (List.mem_cons_self _ _))
    have hy : y ≤ ys.foldl Nat.max (Nat.max x y) :=
      le_trans (Nat.le_max_right x y) (ih (Nat.max x y) _ (List.mem_cons_self _ _))
    simp only [List.foldl_cons]
    rcases List.mem_cons.mp h with rfl | h1
    · exact hx
    · rcases List.mem_cons.mp h1 with rfl | h2
      · exact hy
      · exact ih _ _ (List.mem_cons.mpr (Or.inr h2))

/-- The left fold of `max` is attained by one of the candidates. -/
lemma foldl_max_mem : ∀ (xs : List Nat) (x : Nat), xs.foldl Nat.max x ∈ x :: xs := by
  intro xs
  induction xs with
  | nil => intro x; simp
  | cons y ys ih =>
    intro x
    simp only [List.foldl_cons]
    rcases List.mem_cons.mp (ih (Nat.max x y)) with h | h
    · have hm : Nat.max x y = x ∨ Nat.max x y = y := by
        rcases Nat.le_total x y with h' | h'
        · exact Or.inr (Nat.max_eq_right h')
        · exact Or.inl (Nat.max_eq_left h')
      rcases hm with hm | hm
      · rw [h, hm]; exact List.mem_cons_self _ _
      · rw [h, hm]; exact List.mem_cons.mpr (Or.inr (List.mem_cons_self _ _))
    · exact List.mem_cons.mpr (Or.inr (List.mem_cons.mpr (Or.inr h)))

/-- The raw first-cell length of every row of a block is bounded by the
block's `firstColumnWidth`. -/
lemma cell1_le_fcw :
    ∀ (block : List (List Char)) (l : List Char), l ∈ block →
      (cell1 l).length ≤ firstColumnWidth block := by
  intro block l h
  cases block with
  | nil => cases h
  | cons b bs =>
    unfold firstColumnWidth
    rcases List.mem_cons.mp h with rfl | h1
    · exact le_foldl_max _ _ _ (List.mem_cons_self _ _)
    · exact le_foldl_max _ _ _
        (List.mem_cons.mpr (Or.inr (List.mem_map_of_mem _ h1)))

/-- The `firstColumnWidth` of a non-empty block is the raw first-cell length
of one of its rows. -/
lemma fcw_mem (b : List Char) (bs : List (List Char)) :
    ∃ l ∈ b :: bs, firstColumnWidth (b :: bs) = (cell1 l).length := by
  have h := foldl_max_mem (bs.map fun l => (cell1 l).length) (cell1 b).length
  unfold firstColumnWidth
  rcases List.mem_cons.mp h with h1 | h1
  · exact ⟨b, List.mem_cons_self _ _, h1⟩
  · rcases List.mem_map.mp h1 with ⟨l, hl, he⟩
    exact ⟨l, List.mem_cons.mpr (Or.inr hl), he.symm⟩

/-- Dropping a prefix cannot lengthen a list. -/
lemma length_dropWhile_le (p : Char → Bool) :
    ∀ l : List Char, (l.dropWhile p).length ≤ l.length := by
  intro l
  induction l with
  | nil => simp
  | cons c cs ih =>
    by_cases h : p c
    · simp only [List.dropWhile_cons, h, if_pos]
      simp only [List.length_cons]
      omega
    · simp [List.dropWhile_cons, h]

/-- Trimming cannot lengthen a cell. -/
lemma trim_length_le (l : List Char) : (trim l).length ≤ l.length := by
  unfold trim
  calc ((l.dropWhile isWs).reverse.dropWhile isWs).reverse.length
      = ((l.dropWhile isWs).reverse.dropWhile isWs).length := by simp
    _ ≤ (l.dropWhile isWs).reverse.length := length_dropWhile_le _ _
    _ = (l.dropWhile isWs).length := by simp
    _ ≤ l.length := length_dropWhile_le _ _

/-- The visual (marker-free) length of the action cell never exceeds the raw
cell length: removing the emphasis-marker count from the rendered action
leaves at most the trimmed cell, which is at most the raw cell. -/
lemma rowAction_length_le (first : Bool) (c1 : List Char) :
    (rowAction first c1).length ≤ c1.length + extraLen (rowAction first c1) := by
  have ht := trim_length_le c1
  cases first with
  | false =>
    have hr : rowAction false c1 = trim c1 := by simp [rowAction]
    rw [hr]
    exact le_trans ht (Nat.le_add_right _ _)
  | true =>
    have hr : rowAction true c1 = btick :: (trim c1 ++ [btick]) := by
      simp [rowAction]
    rw [hr]
    simp [extraLen, List.countP_cons, List.countP_append]
    omega

/-- When every row's raw first cell fits in `fcw` and every row splits into
at least three pieces, the row loop emits a result: the indexings
`cols[1]` / `cols[2]` are in bounds and the padding subtraction never
underflows. -/
lemma justifyRows_isSome (fcw : Nat) :
    ∀ (rows : List (List Char)) (i : Nat),
      (∀ l ∈ rows, (cell1 l).length ≤ fcw) →
      (∀ l ∈ rows, 3 ≤ (splitChar '|' l).length) →
      (justifyRows fcw i rows).isSome = true := by
  intro rows
  induction rows with
  | nil => intro i _ _; simp [justifyRows]
  | cons line rest ih =>
    intro i hb hc
    have hlen := hc line (List.mem_cons_self _ _)
    have hcell := hb line (List.mem_cons_self _ _)
    obtain ⟨c1, h1⟩ : ∃ c1, (splitChar '|' line).get? 1 = some c1 := by
      cases h : (splitChar '|' line).get? 1 with
      | some c => exact ⟨c, rfl⟩
      | none =>
        have := List.get?_eq_none.mp h
        omega
    obtain ⟨c2, h2⟩ : ∃ c2, (splitChar '|' line).get? 2 = some c2 := by
      cases h : (splitChar '|' line).get? 2 with
      | some c => exact ⟨c, rfl⟩
      | none =>
        have := List.get?_eq_none.mp h
        omega
    have hb' : ∀ l ∈ rest, (cell1 l).length ≤ fcw :=
      fun l hl => hb l (List.mem_cons.mpr (Or.inr hl))
    have hc' : ∀ l ∈ rest, 3 ≤ (splitChar '|' l).length :=
      fun l hl => hc l (List.mem_cons.mpr (Or.inr hl))
    have hi := ih (i + 1) hb' hc'
    have hcl : cell1 line = c1 := by
      simp [cell1, List.getD_eq_getElem?_getD, ← List.get?_eq_getElem?, h1]
    simp only [justifyRows, h1, h2]
    by_cases hd : startsWith (String.toList ":--") (trim c1) = true
    · rw [if_pos hd]
      exact hi
    · have hact : (rowAction (i == 0) c1).length ≤
          fcw + extraLen (rowAction (i == 0) c1) := by
      
        have h5 := rowAction_length_le (i == 0) c1
        have h6 : c1.length ≤ fcw := by rw [← hcl]; exact hcell
        omega
      rw [if_neg hd, if_pos (by omega)]
      cases hrec : justifyRows fcw (i + 1) rest with
      | none => rw [hrec] at hi; simp at hi
      | some out => simp

/-- Claim C7: a divider row (trimmed first cell starting with `":--"`)
produces no output row — the row loop on it is exactly the loop on the
remaining rows — yet the raw (untrimmed) length of its first cell
participates in `firstColumnWidth`, which bounds the raw first-cell length
of every row of the block; in particular, when the divider cell is the
widest cell present, it determines the column width exactly. -/
theorem divider_row_width_counts_but_skipped
    (block : List (List Char)) (line c1 c2 : List Char)
    (hmem : line ∈ block)
    (h1 : (splitChar '|' line).get? 1 = some c1)
    (h2 : (splitChar '|' line).get? 2 = some c2)
    (hdiv : startsWith (String.toList ":--") (trim c1) = true) :
    (cell1 line).length ≤ firstColumnWidth block ∧
      (∀ (fcw i : Nat) (rest : List (List Char)),
        justifyRows fcw i (line :: rest) = justifyRows fcw (i + 1) rest) ∧
      ((∀ l ∈ block, (cell1 l).length ≤ (cell1 line).length) →
        firstColumnWidth block = (cell1 line).length) := by
  refine ⟨cell1_le_fcw block line hmem, ?_, ?_⟩
  · intro fcw i rest
    simp only [justifyRows, h1, h2]
    rw [if_pos hdiv]
  · intro hall
    cases block with
    | nil => cases hmem
    | cons b bs =>
      obtain ⟨l0, hl0, he⟩ := fcw_mem b bs
      have hle := cell1_le_fcw (b :: bs) line hmem
      have hge := hall l0 hl0
      omega

/-- Witness for claim C7, on the two-row block whose divider row
`"| :-- | :-- |"` is wider than the data row `"|a|b|"`. -/
theorem divider_row_width_counts_but_skipped_witness :
    (cell1 (String.toList "| :-- | :-- |")).length ≤
        firstColumnWidth [String.toList "| :-- | :-- |", String.toList "|a|b|"] ∧
      (∀ (fcw i : Nat) (rest : List (List Char)),
        justifyRows fcw i (String.toList "| :-- | :-- |" :: rest) =
          justifyRows fcw (i + 1) rest) ∧
      ((∀ l ∈ [String.toList "| :-- | :-- |", String.toList "|a|b|"],
          (cell1 l).length ≤ (cell1 (String.toList "| :-- | :-- |")).length) →
        firstColumnWidth [String.toList "| :-- | :-- |", String.toList "|a|b|"] =
          (cell1 (String.toList "| :-- | :-- |")).length) :=
  divider_row_width_counts_but_skipped
    [String.toList "| :-- | :-- |", String.toList "|a|b|"]
    (String.toList "| :-- | :-- |")
    (String.toList " :-- ") (String.toList " :-- ")
    (by decide) (by decide) (by decide) (by decide)

/-- Claim C8: for every emitted (non-divider) row, the emitted text inserts
exactly `firstColumnWidth + (backtick count of the rendered action cell) + 2
− (rendered action cell length)` padding spaces between the action cell and
the shortcut cell, and consequently the marker-free width of the action cell
plus the padding is exactly `firstColumnWidth + 2`: after markup stripping
every shortcut cell starts at the same visual column. -/
theorem padding_formula (fcw i : Nat) (line : List Char)
    (rest : List (List Char)) (c1 c2 restOut : List Char)
    (h1 : (splitChar '|' line).get? 1 = some c1)
    (h2 : (splitChar '|' line).get? 2 = some c2)
    (hdiv : ¬ startsWith (String.toList ":--") (trim c1) = true)
    (hlen : (rowAction (i == 0) c1).length ≤
      fcw + extraLen (rowAction (i == 0) c1) + 2)
    (hrest : justifyRows fcw (i + 1) rest = some restOut) :
    justifyRows fcw i (line :: rest) =
      some (rowAction (i == 0) c1 ++
        List.replicate (fcw + extraLen (rowAction (i == 0) c1) + 2 -
            (rowAction (i == 0) c1).length) ' ' ++
        rowShortcut (i == 0) c2 ++ '\n' :: restOut) ∧
      ((rowAction (i == 0) c1).length - extraLen (rowAction (i == 0) c1)) +
          (fcw + extraLen (rowAction (i == 0) c1) + 2 -
            (rowAction (i == 0) c1).length) = fcw + 2 := by
  constructor
  · simp only [justifyRows, h1, h2]
    rw [if_neg hdiv, if_pos hlen, hrest]
  · have hext : extraLen (rowAction (i == 0) c1) ≤ (rowAction (i == 0) c1).length :=
      List.countP_le_length _
    omega

/-- Witness for claim C8, on the row `"|abc|xy|"` at index 1 with column
width 5: four padding spaces are emitted and the stripped action width plus
padding is 7 = 5 + 2. -/
theorem padding_formula_witness :
    justifyRows 5 1 [String.toList "|abc|xy|"] =
      some (rowAction (1 == 0) (String.toList "abc") ++
        List.replicate (5 + extraLen (rowAction (1 == 0) (String.toList "abc")) + 2 -
            (rowAction (1 == 0) (String.toList "abc")).length) ' ' ++
        rowShortcut (1 == 0) (String.toList "xy") ++ '\n' :: ['\n']) ∧
      ((rowAction (1 == 0) (String.toList "abc")).length -
            extraLen (rowAction (1 == 0) (String.toList "abc"))) +
          (5 + extraLen (rowAction (1 == 0) (String.toList "abc")) + 2 -
            (rowAction (1 == 0) (String.toList "abc")).length) = 5 + 2 :=
  padding_formula 5 1 (String.toList "|abc|xy|") [] (String.toList "abc")
    (String.toList "xy") ['\n']
    (by decide) (by decide) (by decide) (by decide) (by decide)

/-- Claim C10: for every table block in which each line contains at least
two `'|'` separators (splits into at least three pieces), the justifier
reaches no panic: `cols[1]` and `cols[2]` exist, the padding subtraction
never underflows, and the table is produced; moreover the computed padding
is always at least 2, because the marker-free action length is bounded by
the raw first-cell length, which is bounded by `firstColumnWidth`. -/
theorem table_justifier_safety (block : List (List Char))
    (hcols : ∀ l ∈ block, 3 ≤ (splitChar '|' l).length) :
    (justifyTable block).isSome = true ∧
      (∀ l ∈ block, ∀ first : Bool,
        2 ≤ firstColumnWidth block + extraLen (rowAction first (cell1 l)) + 2 -
            (rowAction first (cell1 l)).length) := by
  constructor
  · have h := justifyRows_isSome (firstColumnWidth block) block 0
      (fun l hl => cell1_le_fcw block l hl) hcols
    simpa [justifyTable] using h
  · intro l hl first
    have h1 := rowAction_length_le first (cell1 l)
    have h2 := cell1_le_fcw block l hl
    omega

/-- Witness for claim C10, on a block with a data row and a divider row. -/
theorem table_justifier_safety_witness :
    (justifyTable [String.toList "|a|b|", String.toList "| :-- | :-- |"]).isSome =
        true ∧
      (∀ l ∈ [String.toList "|a|b|", String.toList "| :-- | :-- |"],
        ∀ first : Bool,
        2 ≤ firstColumnWidth [String.toList "|a|b|", String.toList "| :-- | :-- |"] +
              extraLen (rowAction first (cell1 l)) + 2 -
            (rowAction first (cell1 l)).length) :=
  table_justifier_safety [String.toList "|a|b|", String.toList "| :-- | :-- |"]
    (by decide)

/-- Claim C9 (amended): a document in which any required marker lookup fails
(user-guide start, user-guide end, or the shortcuts-table start/end used by
the table extractor) yields no output whatsoever; and when every marker
lookup of the pipeline succeeds AND every line of the extracted table block
contains at least two `'|'` separators, the pipeline produces output — the
steps after the marker checks are total only for table blocks whose rows
are well formed, not unconditionally. -/
theorem help_pipeline_marker_totality (doc : List Char) :
    ((findIdx UG_START doc = none ∨ findIdx UG_END doc = none ∨
        tableLinesOf doc = none) →
      ∀ wrap : List Char → List (List Char),
        get_formatted_help_text wrap doc = none) ∧
    (markersOk doc = true → tableWellFormed doc = true →
      ∀ wrap : List Char → List (List Char),
        (get_formatted_help_text wrap doc).isSome = true) := by
  have hnone : (findIdx UG_START doc = none ∨ findIdx UG_END doc = none ∨
      tableLinesOf doc = none) → get_formatted_help_text_pre doc = none := by
    intro h
    rcases h with h | h | h
    · simp [get_formatted_help_text_pre, h]
    · cases ha : findIdx UG_START doc with
      | none => simp [get_formatted_help_text_pre, ha]
      | some a => simp [get_formatted_help_text_pre, ha, h]
    · cases ha : findIdx UG_START doc with
      | none => simp [get_formatted_help_text_pre, ha]
      | some a =>
        cases hb : findIdx UG_END doc with
        | none => simp [get_formatted_help_text_pre, ha, hb]
        | some b =>
          simp only [get_formatted_help_text_pre, ha, hb]
          split_ifs with hab
          · cases hp : splitOnce TBL_SPLIT ((doc.drop a).take (b - a)) with
            | none => simp
            | some pr =>
              cases hq : splitOnce PARA_BREAK pr.2 with
              | none => simp [hq]
              | some q => simp [hq, get_justified_keyboard_shortcuts_table, h]
          · rfl
  have hsome : markersOk doc = true → tableWellFormed doc = true →
      (get_formatted_help_text_pre doc).isSome = true := by
    intro hm ht
    cases ha : findIdx UG_START doc with
    | none => simp [markersOk, ha] at hm
    | some a =>
    cases hb : findIdx UG_END doc with
    | none => simp [markersOk, ha, hb] at hm
    | some b =>
    simp only [markersOk, ha, hb, Bool.and_eq_true, decide_eq_true_eq] at hm
    obtain ⟨⟨hab, hsp⟩, htb⟩ := hm
    cases hp : splitOnce TBL_SPLIT ((doc.drop a).take (b - a)) with
    | none => simp [hp] at hsp
    | some pr =>
    simp only [hp] at hsp
    cases hq : splitOnce PARA_BREAK pr.2 with
    | none => simp [hq] at hsp
    | some q =>
    cases hls : tableLinesOf doc with
    | none => simp [hls] at htb
    | some ls =>
    simp only [tableWellFormed, hls, List.all_eq_true, decide_eq_true_eq] at ht
    have hjt : (justifyTable ls).isSome = true := by
      have h := justifyRows_isSome (firstColumnWidth ls) ls 0
        (fun l hl => cell1_le_fcw ls l hl) ht
      simpa [justifyTable] using h
    cases hj : justifyTable ls with
    | none => simp [hj] at hjt
    | some table =>
    simp [get_formatted_help_text_pre, ha, hb, hab, hp, hq,
      get_justified_keyboard_shortcuts_table, hls, hj]
  refine ⟨fun h wrap => ?_, fun hm ht wrap => ?_⟩
  · simp [get_formatted_help_text, hnone h]
  · have h := hsome hm ht
    cases hx : get_formatted_help_text_pre doc with
    | none => simp [hx] at h
    | some p => simp [get_formatted_help_text, hx]

/-- Witness for the amended claim C9: a document without any marker yields
no output, and a well-formed document (all markers present, every table row
with two pipes) yields output, here with the identity-like wrap that puts
the whole text on one line. -/
theorem help_pipeline_marker_totality_witness :
    get_formatted_help_text (fun t => [t]) (String.toList "hello") = none ∧
      (get_formatted_help_text (fun t => [t])
          (String.toList
            "## User guide\n\n|p|q|\n\nkeyboard shortcuts:\n\n|a|b|\n\n## Similar projects")).isSome =
        true :=
  ⟨(help_pipeline_marker_totality (String.toList "hello")).1
      (Or.inl (by decide)) (fun t => [t]),
   (help_pipeline_marker_totality (String.toList
        "## User guide\n\n|p|q|\n\nkeyboard shortcuts:\n\n|a|b|\n\n## Similar projects")).2
      (by decide) (by decide) (fun t => [t])⟩

/-- Claim C9 counterexample: in this document every required marker is
present — the user-guide start and end markers are found, the table start
and end markers are found (`tableLinesOf` succeeds), indeed every marker
lookup of the pipeline succeeds (`markersOk`) — yet the pipeline returns no
output, because the extracted table block is the single line `"x"` with no
`'|'` separators and the row loop hits the `cols[1]` panic.  This refutes
the claim that once all markers are present no runtime error path exists. -/
theorem markers_present_but_pipeline_fails_cex :
    (findIdx UG_START (String.toList
        "## User guide\n\n|a|b|\n\nkeyboard shortcuts:\n\nx\n\n## Similar projects")).isSome =
        true ∧
      (findIdx UG_END (String.toList
          "## User guide\n\n|a|b|\n\nkeyboard shortcuts:\n\nx\n\n## Similar projects")).isSome =
        true ∧
      (tableLinesOf (String.toList
          "## User guide\n\n|a|b|\n\nkeyboard shortcuts:\n\nx\n\n## Similar projects")).isSome =
        true ∧
      markersOk (String.toList
          "## User guide\n\n|a|b|\n\nkeyboard shortcuts:\n\nx\n\n## Similar projects") =
        true ∧
      get_formatted_help_text (fun t => [t]) (String.toList
          "## User guide\n\n|a|b|\n\nkeyboard shortcuts:\n\nx\n\n## Similar projects") =
        none := by
  decide
